import Mathlib

/-!
Shallow embedding of the Gomoku engine of this repository
(`src/game_hight_level.py`): the `Board` state model with placement,
removal, win and terminal detection, and the `AIPlayer` move generator,
positional evaluator and alpha-beta search driver.  Machine colors are the
RGB triples used by the source; coordinates are integers (the source never
bounds-checks lookups, so lookups at negative coordinates are meaningful
and return no stone).
-/

set_option autoImplicit false

/-- RGB color triple, as used for the `WHITE`/`BLACK` constants. -/
abbrev Color := Nat × Nat × Nat

def WHITE : Color := (255, 255, 255)

def BLACK : Color := (0, 0, 0)

/-- The fixed board size constant `BOARD_SIZE = 15`. -/
def BOARD_SIZE : Nat := 15

/-- A placed stone; the source also stores a timestamp, which is never read
by the engine logic and is omitted here. -/
structure Stone where
  x : Int
  y : Int
  color : Color
deriving DecidableEq, Repr

/-- Board state: fixed size, insertion-ordered stone list, and the
most-recently-placed stone (if any). -/
structure Board where
  size : Nat
  stones : List Stone
  last_move : Option Stone
deriving DecidableEq, Repr

/-- `Board.__init__`: the empty 15x15 board. -/
def emptyBoard : Board := { size := BOARD_SIZE, stones := [], last_move := none }

/-- `Board.is_valid_move`: in bounds and no stone at `(x, y)`. -/
def Board.is_valid_move (b : Board) (x y : Int) : Bool :=
  if x < 0 ∨ x ≥ (b.size : Int) ∨ y < 0 ∨ y ≥ (b.size : Int) then false
  else !(b.stones.any fun s => s.x == x && s.y == y)

/-- `Board.place_stone`: on a valid move, append the stone and make it the
last move, returning `true`; otherwise return `false` with the board
unchanged.  The mutation is modelled by returning the updated board. -/
def Board.place_stone (b : Board) (x y : Int) (c : Color) : Bool × Board :=
  if b.is_valid_move x y then
    (true, { b with stones := b.stones ++ [⟨x, y, c⟩], last_move := some ⟨x, y, c⟩ })
  else (false, b)

/-- `Board.get_stone_at`: first stone in the list with the given
coordinates (the source does not bounds-check). -/
def Board.get_stone_at (b : Board) (x y : Int) : Option Stone :=
  b.stones.find? fun s => s.x == x && s.y == y

/-- `Board.remove_stone`: drop every stone at `(x, y)`; if the last move
was at `(x, y)` it becomes absent. -/
def Board.remove_stone (b : Board) (x y : Int) : Board :=
  { b with
    stones := b.stones.filter fun s => !(s.x == x && s.y == y),
    last_move :=
      match b.last_move with
      | some lm => if lm.x == x && lm.y == y then none else some lm
      | none => none }

/-- The four axis directions scanned by `check_win` and the evaluator. -/
def directions : List (Int × Int) := [(1, 0), (0, 1), (1, 1), (1, -1)]

/-- The walk step test of `check_win`: the cell holds a stone of color `c`. -/
def colorMatch (b : Board) (c : Color) (x y : Int) : Bool :=
  match b.get_stone_at x y with
  | some st => st.color == c
  | none => false

/-- One direction of `check_win`'s walk: number of consecutive matching
stones over at most `fuel` steps outward from `(x, y)` (exclusive). -/
def runLen (b : Board) (c : Color) (dx dy : Int) : Nat → Int → Int → Nat
  | 0, _, _ => 0
  | fuel + 1, x, y =>
      if colorMatch b c (x + dx) (y + dy) then runLen b c dx dy fuel (x + dx) (y + dy) + 1
      else 0

/-- `Board.check_win`: some axis direction reaches a count of at least 5,
summing both walk directions plus the tested stone itself; `None` input
yields `false`. -/
def Board.check_win (b : Board) (last_stone : Option Stone) : Bool :=
  match last_stone with
  | none => false
  | some s => directions.any fun d =>
      decide (5 ≤ 1 + runLen b s.color d.1 d.2 4 s.x s.y + runLen b s.color (-d.1) (-d.2) 4 s.x s.y)

/-- `Board.is_game_over`: the last move won, or the board is full. -/
def Board.is_game_over (b : Board) : Bool :=
  (match b.last_move with
   | some lm => b.check_win (some lm)
   | none => false) ||
  (b.stones.length == b.size * b.size)

/-- `Board.get_winner`: color of the last move when it produced a win. -/
def Board.get_winner (b : Board) : Option Color :=
  match b.last_move with
  | some lm => if b.check_win (some lm) then some lm.color else none
  | none => none

/-- The `Difficulty` enum. -/
inductive Difficulty
  | EASY
  | MEDIUM
  | HARD
deriving DecidableEq, Repr

/-- One difficulty's pattern weight table (keys "2", "3", "4", "5"). -/
structure Weights where
  w2 : Int
  w3 : Int
  w4 : Int
  w5 : Int
deriving Repr

/-- `AIPlayer.weights` of `game_hight_level.py`. -/
def weights : Difficulty → Weights
  | .EASY => ⟨10, 50, 1000, 100000⟩
  | .MEDIUM => ⟨20, 100, 2000, 200000⟩
  | .HARD => ⟨30, 200, 4000, 400000⟩

/-- `AIPlayer.search_depth`. -/
def searchDepth : Difficulty → Nat
  | .EASY => 2
  | .MEDIUM => 3
  | .HARD => 4

/-- Why a direction's walk in `_evaluate_position` ended: at a cell with no
stone (`sempty`, counted as an open end), at a differently-colored stone
(`sblock`, counted in the unused `blocks` counter), or by exhausting the
4-step window with every cell matching (`snone`, no counter touched). -/
inductive StopK
  | sempty
  | sblock
  | snone
deriving DecidableEq, Repr

/-- One direction of `_evaluate_position`'s walk: the number of matching
stones seen and how the walk stopped, over at most `fuel` steps. -/
def sideWalk (b : Board) (c : Color) (dx dy : Int) : Nat → Int → Int → Nat × StopK
  | 0, _, _ => (0, .snone)
  | fuel + 1, x, y =>
      match b.get_stone_at (x + dx) (y + dy) with
      | some st =>
          if st.color == c then
            let r := sideWalk b c dx dy fuel (x + dx) (y + dy)
            (r.1 + 1, r.2)
          else (0, .sblock)
      | none => (0, .sempty)

/-- The `open_ends` counter of `_evaluate_position` for one axis: one per
side whose walk stopped at a cell with no stone. -/
def dirOpenEnds (b : Board) (c : Color) (x y dx dy : Int) : Nat :=
  (if (sideWalk b c dx dy 4 x y).2 = StopK.sempty then 1 else 0) +
  (if (sideWalk b c (-dx) (-dy) 4 x y).2 = StopK.sempty then 1 else 0)

/-- Per-axis score of `_evaluate_position`: pattern weight chosen by run
count and open ends. -/
def dirScore (diff : Difficulty) (b : Board) (c : Color) (x y dx dy : Int) : Int :=
  let count : Nat := 1 + (sideWalk b c dx dy 4 x y).1 + (sideWalk b c (-dx) (-dy) 4 x y).1
  let openEnds := dirOpenEnds b c x y dx dy
  let w := weights diff
  if 5 ≤ count then w.w5
  else if count = 4 then (if openEnds = 2 then w.w4 * 2 else if openEnds = 1 then w.w4 else 0)
  else if count = 3 then (if openEnds = 2 then w.w3 * 2 else if openEnds = 1 then w.w3 else 0)
  else if count = 2 then (if openEnds = 2 then w.w2 * 2 else if openEnds = 1 then w.w2 else 0)
  else 0

/-- `AIPlayer._evaluate_position`: sum of the four axis scores. -/
def evalPos (diff : Difficulty) (x y : Int) (b : Board) (c : Color) : Int :=
  directions.foldl (fun acc d => acc + dirScore diff b c x y d.1 d.2) 0

/-- Offsets of the 5x5 Chebyshev neighborhood scanned by `_has_neighbor`
(the center is skipped inside `hasNeighbor` itself). -/
def neighborOffsets : List (Int × Int) :=
  (List.range 5).flatMap fun (i : Nat) =>
    (List.range 5).map fun (j : Nat) => ((i : Int) - 2, (j : Int) - 2)

/-- `AIPlayer._has_neighbor` with the default distance 2. -/
def hasNeighbor (b : Board) (x y : Int) : Bool :=
  neighborOffsets.any fun d =>
    !(d.1 == 0 && d.2 == 0) &&
    (decide (0 ≤ x + d.1) && decide (x + d.1 < (b.size : Int)) &&
     decide (0 ≤ y + d.2) && decide (y + d.2 < (b.size : Int)) &&
     (b.get_stone_at (x + d.1) (y + d.2)).isSome)

/-- Stable descending insertion by integer key: the new element goes in
front of the first element whose key is not larger, which reproduces the
stable descending order of Python's `sorted(..., reverse=True)`. -/
def insertDesc {α : Type} (key : α → Int) (a : α) : List α → List α
  | [] => [a]
  | b :: l => if key b ≤ key a then a :: b :: l else b :: insertDesc key a l

/-- Stable descending sort by integer key. -/
def sortDesc {α : Type} (key : α → Int) : List α → List α
  | [] => []
  | a :: l => insertDesc key a (sortDesc key l)

/-- `AIPlayer._get_valid_moves`: empty cells with an occupied neighbor,
paired with their WHITE positional score, sorted descending by that score
and projected to coordinates. -/
def getValidMoves (diff : Difficulty) (b : Board) : List (Int × Int) :=
  let cands := (List.range b.size).flatMap fun (x : Nat) =>
    (List.range b.size).filterMap fun (y : Nat) =>
      if b.is_valid_move (x : Int) (y : Int) && hasNeighbor b (x : Int) (y : Int) then
        some (evalPos diff (x : Int) (y : Int) b WHITE, ((x : Int), (y : Int)))
      else none
  (sortDesc (fun pr => pr.1) cands).map fun pr => pr.2

/-- Evaluation values: the Python floats used by the engine are either
integers or the two infinities. -/
inductive EvalV
  | ninf
  | num (n : Int)
  | pinf
deriving DecidableEq, Repr

/-- Strict order on evaluation values (float `<`). -/
def EvalV.lt : EvalV → EvalV → Bool
  | _, .ninf => false
  | .pinf, _ => false
  | .ninf, _ => true
  | .num a, .num b => decide (a < b)
  | .num _, .pinf => true

/-- Non-strict order on evaluation values (float `<=`). -/
def EvalV.le : EvalV → EvalV → Bool
  | .ninf, _ => true
  | _, .pinf => true
  | .num a, .num b => decide (a ≤ b)
  | _, _ => false

/-- Python `max(a, e)`: keeps `a` on ties. -/
def maxV (a e : EvalV) : EvalV := if EvalV.lt a e then e else a

/-- Python `min(a, e)`: keeps `a` on ties. -/
def minV (a e : EvalV) : EvalV := if EvalV.lt e a then e else a

/-- `AIPlayer._evaluate_board`: sentinels on terminal boards, otherwise the
accumulated WHITE-minus-BLACK positional scores over all valid cells. -/
def evaluateBoard (diff : Difficulty) (b : Board) : EvalV :=
  if b.is_game_over then
    if b.get_winner = some WHITE then .pinf
    else if b.get_winner = some BLACK then .ninf
    else .num 0
  else
    .num ((List.range b.size).foldl
      (fun (acc : Int) (x : Nat) => (List.range b.size).foldl
        (fun (acc2 : Int) (y : Nat) =>
          if b.is_valid_move (x : Int) (y : Int) then
            acc2 + evalPos diff (x : Int) (y : Int) b WHITE
              - evalPos diff (x : Int) (y : Int) b BLACK
          else acc2)
        acc)
      0)

/-- The maximizing loop of `_alpha_beta`: try each move as WHITE, fold the
child values with `max`, tighten alpha, and break once `beta <= alpha`. -/
def abLoopMax (f : Board → EvalV → EvalV) (β : EvalV) (b : Board) :
    List (Int × Int) → EvalV → EvalV → EvalV
  | [], m, _ => m
  | mv :: rest, m, α =>
      let e := f (b.place_stone mv.1 mv.2 WHITE).2 α
      let m' := maxV m e
      let α' := maxV α e
      if EvalV.le β α' then m' else abLoopMax f β b rest m' α'

/-- The minimizing loop of `_alpha_beta`: try each move as BLACK, fold with
`min`, tighten beta, and break once `beta <= alpha`. -/
def abLoopMin (f : Board → EvalV → EvalV) (α : EvalV) (b : Board) :
    List (Int × Int) → EvalV → EvalV → EvalV
  | [], m, _ => m
  | mv :: rest, m, β =>
      let e := f (b.place_stone mv.1 mv.2 BLACK).2 β
      let m' := minV m e
      let β' := minV β e
      if EvalV.le β' α then m' else abLoopMin f α b rest m' β'

/-- `AIPlayer._alpha_beta`: static evaluation at depth 0 or on a finished
game, otherwise the pruned max/min fold over the generated moves. -/
def alphaBeta (diff : Difficulty) : Nat → Board → EvalV → EvalV → Bool → EvalV
  | 0, b, _, _, _ => evaluateBoard diff b
  | d + 1, b, α, β, isMax =>
      if b.is_game_over then evaluateBoard diff b
      else if isMax then
        abLoopMax (fun b' α' => alphaBeta diff d b' α' β false) β b (getValidMoves diff b) .ninf α
      else
        abLoopMin (fun b' β' => alphaBeta diff d b' α β' true) α b (getValidMoves diff b) .pinf β

/-- The root loop of `AIPlayer.get_move`: evaluate each candidate with a
minimizing search one ply shallower, keep the strictly best score and its
move, and raise alpha; no pruning break at the root. -/
def rootLoop (f : Board → EvalV → EvalV) (b : Board) :
    List (Int × Int) → Option (Int × Int) → EvalV → EvalV → Option (Int × Int)
  | [], best, _, _ => best
  | mv :: rest, best, bestScore, α =>
      let score := f (b.place_stone mv.1 mv.2 WHITE).2 α
      let best' := if EvalV.lt bestScore score then some mv else best
      let bs' := if EvalV.lt bestScore score then score else bestScore
      rootLoop f b rest best' bs' (maxV α bs')

/-- `AIPlayer.get_move`: best root candidate, defaulting to the board
center when no candidate improved on negative infinity. -/
def getMove (diff : Difficulty) (b : Board) : Int × Int :=
  match rootLoop (fun b' α => alphaBeta diff (searchDepth diff - 1) b' α .pinf false) b
      (getValidMoves diff b) none .ninf .ninf with
  | some mv => mv
  | none => (((b.size / 2 : Nat) : Int), ((b.size / 2 : Nat) : Int))

/-- Spec wording for C4: the coordinate is in bounds. -/
def inBoundsP (b : Board) (x y : Int) : Prop :=
  0 ≤ x ∧ x < (b.size : Int) ∧ 0 ≤ y ∧ y < (b.size : Int)

/-- Spec wording for C4: no stone occupies the coordinate. -/
def unoccupiedP (b : Board) (x y : Int) : Prop :=
  ∀ s ∈ b.stones, ¬(s.x = x ∧ s.y = y)

/-- The first non-matching cell met by a directional walk within the
4-step window, if any. -/
def firstNonMatch (b : Board) (c : Color) (dx dy : Int) : Nat → Int → Int → Option (Int × Int)
  | 0, _, _ => none
  | fuel + 1, x, y =>
      if colorMatch b c (x + dx) (y + dy) then firstNonMatch b c dx dy fuel (x + dx) (y + dy)
      else some (x + dx, y + dy)

/-- Boolean in-bounds test, used by the claim-side open-end notion. -/
def inBoundsB (b : Board) (x y : Int) : Bool :=
  decide (0 ≤ x) && decide (x < (b.size : Int)) &&
  decide (0 ≤ y) && decide (y < (b.size : Int))

/-- Amended open-end notion for C2: the walk meets a first non-matching
cell within its window and that cell holds no stone (in bounds or not). -/
def specOpenSide (b : Board) (c : Color) (x y dx dy : Int) : Bool :=
  match firstNonMatch b c dx dy 4 x y with
  | some q => (b.get_stone_at q.1 q.2).isNone
  | none => false

/-- Open-end notion following C2's wording: the first non-matching cell
must hold no stone and additionally be in bounds. -/
def claimOpenSide (b : Board) (c : Color) (x y dx dy : Int) : Bool :=
  match firstNonMatch b c dx dy 4 x y with
  | some q => (b.get_stone_at q.1 q.2).isNone && inBoundsB b q.1 q.2
  | none => false

/-- All coordinates of the board grid, in the scan order of the source. -/
def boardCells (b : Board) : List (Int × Int) :=
  (List.range b.size).flatMap fun (x : Nat) =>
    (List.range b.size).map fun (y : Nat) => ((x : Int), (y : Int))

/-- The empty cells of the board, per the spec wording of C5. -/
def emptyCells (b : Board) : List (Int × Int) :=
  (boardCells b).filter fun p => b.is_valid_move p.1 p.2

/-- Board evaluation as C5 words it: sentinel by winner on terminal
boards, else the sum over empty cells of the WHITE-minus-BLACK score. -/
def evaluateBoardSpec (diff : Difficulty) (b : Board) : EvalV :=
  if b.is_game_over then
    if b.get_winner = some WHITE then .pinf
    else if b.get_winner = some BLACK then .ninf
    else .num 0
  else
    .num (((emptyCells b).map fun p =>
      evalPos diff p.1 p.2 b WHITE - evalPos diff p.1 p.2 b BLACK).sum)

/-- Spec wording for C6: some axis carries at least 5 contiguous
same-color stones through `s` (both directions plus `s` itself). -/
def hasRunThrough (b : Board) (s : Stone) : Prop :=
  ∃ d ∈ directions, ∃ j k : Nat, 4 ≤ j + k ∧
    (∀ i : Nat, 1 ≤ i → i ≤ j →
      colorMatch b s.color (s.x + d.1 * (i : Int)) (s.y + d.2 * (i : Int)) = true) ∧
    (∀ i : Nat, 1 ≤ i → i ≤ k →
      colorMatch b s.color (s.x - d.1 * (i : Int)) (s.y - d.2 * (i : Int)) = true)

/-- Invariant of C9: at most one stone per coordinate. -/
def coordsNodup (b : Board) : Prop :=
  b.stones.Pairwise fun s t => ¬(s.x = t.x ∧ s.y = t.y)

/-- Invariant of C9: every stone lies on the grid. -/
def stonesInBounds (b : Board) : Prop :=
  ∀ s ∈ b.stones, 0 ≤ s.x ∧ s.x < (b.size : Int) ∧ 0 ≤ s.y ∧ s.y < (b.size : Int)

/-- The conjunction of the two C9 invariants. -/
def WFBoard (b : Board) : Prop := coordsNodup b ∧ stonesInBounds b

/-- Board states reachable from the empty board by placements and
removals. -/
inductive ReachableBoard : Board → Prop
  | empty : ReachableBoard emptyBoard
  | place (b : Board) (x y : Int) (c : Color) :
      ReachableBoard b → ReachableBoard (b.place_stone x y c).2
  | remove (b : Board) (x y : Int) :
      ReachableBoard b → ReachableBoard (b.remove_stone x y)

/-- The two-color candidate pre-score that C3 asserts the generator uses. -/
def sumScore (diff : Difficulty) (b : Board) (p : Int × Int) : Int :=
  evalPos diff p.1 p.2 b WHITE + evalPos diff p.1 p.2 b BLACK

/-- A literal horizontal run (0,0)-(4,0) of one color (C6's example). -/
def runBoard : Board :=
  { size := 15,
    stones := [⟨0, 0, BLACK⟩, ⟨1, 0, BLACK⟩, ⟨2, 0, BLACK⟩, ⟨3, 0, BLACK⟩, ⟨4, 0, BLACK⟩],
    last_move := some ⟨4, 0, BLACK⟩ }

/-- The broken run with a gap at x=2 (C6's example). -/
def brokenRunBoard : Board :=
  { size := 15,
    stones := [⟨0, 0, BLACK⟩, ⟨1, 0, BLACK⟩, ⟨3, 0, BLACK⟩, ⟨4, 0, BLACK⟩, ⟨5, 0, BLACK⟩],
    last_move := some ⟨5, 0, BLACK⟩ }

/-- A board with a strong BLACK line in one corner and a lone WHITE stone
in the opposite corner; used to separate the generator's actual ordering
from the two-color-sum ordering of C3. -/
def mixedBoard : Board :=
  { size := 15,
    stones := [⟨0, 0, BLACK⟩, ⟨1, 0, BLACK⟩, ⟨2, 0, BLACK⟩, ⟨3, 0, BLACK⟩, ⟨14, 14, WHITE⟩],
    last_move := some ⟨14, 14, WHITE⟩ }

/-- The fixed synthetic board of C8's amended statement: one BLACK stone
in the corner. -/
def oneStoneBoard : Board :=
  { size := 15, stones := [⟨0, 0, BLACK⟩], last_move := some ⟨0, 0, BLACK⟩ }

instance (b : Board) : Decidable (coordsNodup b) :=
  inferInstanceAs (Decidable (b.stones.Pairwise _))

instance (b : Board) : Decidable (stonesInBounds b) :=
  inferInstanceAs (Decidable (∀ s ∈ b.stones, _ ∧ _ ∧ _ ∧ _))

instance (b : Board) : Decidable (WFBoard b) :=
  inferInstanceAs (Decidable (_ ∧ _))

instance (b : Board) (x y : Int) : Decidable (inBoundsP b x y) :=
  inferInstanceAs (Decidable (_ ∧ _ ∧ _ ∧ _))

instance (b : Board) (x y : Int) : Decidable (unoccupiedP b x y) :=
  inferInstanceAs (Decidable (∀ s ∈ b.stones, _))

/-- Helper: the boolean validity test is equivalent to the in-bounds and
unoccupied propositions. -/
theorem is_valid_move_iff (b : Board) (x y : Int) :
    b.is_valid_move x y = true ↔ inBoundsP b x y ∧ unoccupiedP b x y := by
  unfold Board.is_valid_move inBoundsP unoccupiedP
  split
  · next h =>
      constructor
      · intro hf; cases hf
      · rintro ⟨⟨h1, h2, h3, h4⟩, -⟩; omega
  · next h =>
      rw [Bool.not_eq_true', List.any_eq_false]
      constructor
      · intro hno
        refine ⟨by omega, fun s hs hc => ?_⟩
        have := hno s hs
        simp [hc.1, hc.2] at this
      · rintro ⟨-, hun⟩ s hs
        have := hun s hs
        simp only [Bool.and_eq_true, beq_iff_eq, not_and]
        intro h1 h2
        exact this ⟨h1, h2⟩

/-- C4: for every board and `(x, y, color)`, `place_stone` returns `true`
if and only if `(x, y)` is in bounds and unoccupied; on success it appends
exactly one new stone which also becomes the last move, and otherwise it
leaves the board (stones and last move) unchanged, raising no exception. -/
theorem place_stone_spec (b : Board) (x y : Int) (c : Color) :
    ((b.place_stone x y c).1 = true ↔ inBoundsP b x y ∧ unoccupiedP b x y) ∧
    (b.place_stone x y c).2 =
      (if (b.place_stone x y c).1 = true
       then { b with stones := b.stones ++ [⟨x, y, c⟩], last_move := some ⟨x, y, c⟩ }
       else b) := by
  constructor
  · rw [← is_valid_move_iff]
    unfold Board.place_stone
    by_cases h : b.is_valid_move x y <;> simp [h]
  · unfold Board.place_stone
    by_cases h : b.is_valid_move x y <;> simp [h]

/-- C10: `check_win` applied to an absent stone returns `false` without
raising, and on a board whose last move is absent `is_game_over` reports a
terminal position exactly when the stone count equals the squared size. -/
theorem check_win_none_game_over (b : Board) :
    b.check_win none = false ∧
    (b.last_move = none → (b.is_game_over = true ↔ b.stones.length = b.size * b.size)) := by
  refine ⟨rfl, fun h => ?_⟩
  simp [Board.is_game_over, h]

/-- C1 (amended): for an in-bounds, unoccupied `(x, y)`, placing and then
immediately removing at `(x, y)` restores the stone set exactly, but the
last-move reference becomes absent rather than reverting to its pre-place
value. -/
theorem place_remove_restores_stones (b : Board) (x y : Int) (c : Color)
    (h : b.is_valid_move x y = true) :
    ((b.place_stone x y c).2.remove_stone x y).stones = b.stones ∧
    ((b.place_stone x y c).2.remove_stone x y).last_move = none := by
  have hun := ((is_valid_move_iff b x y).mp h).2
  simp only [Board.place_stone, h, if_true]
  constructor
  · simp only [Board.remove_stone, List.filter_append]
    have h1 : b.stones.filter (fun s => !(s.x == x && s.y == y)) = b.stones := by
      apply List.filter_eq_self.mpr
      intro s hs
      have hne := hun s hs
      simp only [Bool.not_eq_true', Bool.and_eq_false_iff, beq_eq_false_iff_ne, ne_eq]
      by_cases hx : s.x = x
      · right; intro hy; exact hne ⟨hx, hy⟩
      · left; exact hx
    rw [h1]
    simp
  · simp [Board.remove_stone]

/-- C9: every board reachable from the empty board by `place_stone` and
`remove_stone` calls has at most one stone per coordinate and every stone
within `[0, N) x [0, N)`; both operations preserve the invariant. -/
theorem reachable_board_wellformed (b : Board) (h : ReachableBoard b) : WFBoard b := by
  induction h with
  | empty =>
      exact ⟨List.Pairwise.nil, by intro s hs; cases hs⟩
  | place b x y c hb ih =>
      by_cases hv : b.is_valid_move x y
      · obtain ⟨hin, hun⟩ := (is_valid_move_iff b x y).mp hv
        obtain ⟨hnd, hbd⟩ := ih
        simp only [Board.place_stone, hv, if_true]
        constructor
        · unfold coordsNodup
          rw [List.pairwise_append]
          refine ⟨hnd, List.pairwise_singleton _ _, ?_⟩
          intro s hs t ht
          rw [List.mem_singleton] at ht
          subst ht
          exact hun s hs
        · intro s hs
          rw [List.mem_append, List.mem_singleton] at hs
          rcases hs with hs | rfl
          · exact hbd s hs
          · exact ⟨hin.1, hin.2.1, hin.2.2.1, hin.2.2.2⟩
      · simpa [Board.place_stone, hv] using ih
  | remove b x y hb ih =>
      obtain ⟨hnd, hbd⟩ := ih
      constructor
      · exact List.Pairwise.sublist (List.filter_sublist _) hnd
      · intro s hs
        exact hbd s (List.mem_of_mem_filter hs)

/-- Witness for C9 at a concrete reachable board. -/
theorem reachable_board_wellformed_witness :
    WFBoard ((emptyBoard.place_stone 0 0 BLACK).2.remove_stone 5 5) :=
  reachable_board_wellformed _
    (ReachableBoard.remove _ 5 5 (ReachableBoard.place emptyBoard 0 0 BLACK ReachableBoard.empty))

/-- Witness for the amended C1 at a concrete valid placement. -/
theorem place_remove_restores_stones_witness :
    emptyBoard.is_valid_move 3 4 = true ∧
    (((emptyBoard.place_stone 3 4 BLACK).2.remove_stone 3 4).stones = emptyBoard.stones ∧
     ((emptyBoard.place_stone 3 4 BLACK).2.remove_stone 3 4).last_move = none) :=
  ⟨by decide, place_remove_restores_stones emptyBoard 3 4 BLACK (by decide)⟩

/-- C1 counterexample: with a stone already on the board (so the prior
last move is present), placing at the in-bounds unoccupied cell `(1, 1)`
and removing it again restores the stone set but sets the last move to
`none`, so the board is not restored bit-identically as C1 claims. -/
theorem place_remove_last_move_counterexample :
    ((emptyBoard.place_stone 0 0 BLACK).2.is_valid_move 1 1 = true) ∧
    (((((emptyBoard.place_stone 0 0 BLACK).2.place_stone 1 1 WHITE).2).remove_stone 1 1).stones
       = (emptyBoard.place_stone 0 0 BLACK).2.stones) ∧
    (((((emptyBoard.place_stone 0 0 BLACK).2.place_stone 1 1 WHITE).2).remove_stone 1 1).last_move
       = none) ∧
    ((emptyBoard.place_stone 0 0 BLACK).2.last_move = some ⟨0, 0, BLACK⟩) ∧
    ((((emptyBoard.place_stone 0 0 BLACK).2.place_stone 1 1 WHITE).2).remove_stone 1 1
       ≠ (emptyBoard.place_stone 0 0 BLACK).2) := by
  decide

set_option maxRecDepth 100000 in
/-- C7: on the empty 15x15 board the candidate generator returns the
empty list for every difficulty, and `get_move` falls back to the center
`(7, 7)`. -/
theorem get_move_empty_center :
    ∀ d : Difficulty, getValidMoves d emptyBoard = [] ∧ getMove d emptyBoard = (7, 7) :=
  fun _ => ⟨rfl, rfl⟩

set_option maxRecDepth 100000 in
/-- C8 counterexample: on the empty (non-terminal) board the candidate
list is empty, so depth-1 alpha-beta with the full window returns negative
infinity, strictly below the static evaluation 0 - refuting the claim that
search never degrades the maximizer's value on every board. -/
theorem alpha_beta_degrades_on_empty :
    alphaBeta Difficulty.MEDIUM 1 emptyBoard .ninf .pinf true = .ninf ∧
    evaluateBoard Difficulty.MEDIUM emptyBoard = .num 0 ∧
    EvalV.lt .ninf (.num 0) = true :=
  ⟨rfl, rfl, rfl⟩

set_option maxRecDepth 100000 in
set_option maxHeartbeats 1600000 in
/-- C8 (amended): on the fixed synthetic board with one BLACK stone in
the corner, the depth-1 alpha-beta value with the full window is at least
the static evaluation of the same board. -/
theorem alpha_beta_depth1_ge_static_on_synthetic :
    EvalV.le (evaluateBoard Difficulty.MEDIUM oneStoneBoard)
      (alphaBeta Difficulty.MEDIUM 1 oneStoneBoard .ninf .pinf true) = true := rfl

/-- Helper: a directional walk stops with the open-end kind exactly when
it meets a first non-matching cell within its window and that cell holds
no stone. -/
theorem sideWalk_stop_empty (b : Board) (c : Color) (dx dy : Int) :
    ∀ (fuel : Nat) (x y : Int),
      (sideWalk b c dx dy fuel x y).2 = StopK.sempty ↔
      ∃ q, firstNonMatch b c dx dy fuel x y = some q ∧ b.get_stone_at q.1 q.2 = none := by
  intro fuel
  induction fuel with
  | zero => intro x y; simp [sideWalk, firstNonMatch]
  | succ n ih =>
      intro x y
      cases hst : b.get_stone_at (x + dx) (y + dy) with
      | none => simp [sideWalk, firstNonMatch, colorMatch, hst]
      | some st =>
          by_cases hc : st.color == c
          · simp only [sideWalk, firstNonMatch, colorMatch, hst, hc, if_true]
            exact ih (x + dx) (y + dy)
          · simp [sideWalk, firstNonMatch, colorMatch, hst, hc]

/-- C2 (amended): for every board, point, color and direction, the
evaluator's per-axis `open_ends` counter equals the number of sides whose
first non-matching cell within the 4-step window holds no stone - whether
that cell is in bounds or not; only a stop at an opponent stone fails to
count. -/
theorem open_ends_no_stone_characterization (b : Board) (c : Color) (x y dx dy : Int) :
    dirOpenEnds b c x y dx dy =
      (if specOpenSide b c x y dx dy = true then 1 else 0) +
      (if specOpenSide b c x y (-dx) (-dy) = true then 1 else 0) := by
  unfold dirOpenEnds
  have hside : ∀ (ex ey : Int),
      ((sideWalk b c ex ey 4 x y).2 = StopK.sempty) ↔ specOpenSide b c x y ex ey = true := by
    intro ex ey
    rw [sideWalk_stop_empty b c ex ey 4 x y]
    unfold specOpenSide
    cases hf : firstNonMatch b c ex ey 4 x y with
    | none => simp
    | some q => simp [Option.isNone_iff_eq_none]
  rw [if_congr (hside dx dy) rfl rfl, if_congr (hside (-dx) (-dy)) rfl rfl]

/-- C2 counterexample: at `(0, 0)` on the empty board along the axis
`(1, 0)`, the negative side's walk stops at the out-of-bounds cell
`(-1, 0)`, yet the evaluator counts it as an open end: `open_ends` is 2
where the claim's in-bounds rule predicts 1. -/
theorem open_end_edge_counterexample :
    (sideWalk emptyBoard BLACK (-1) 0 4 0 0).2 = StopK.sempty ∧
    firstNonMatch emptyBoard BLACK (-1) 0 4 0 0 = some (-1, 0) ∧
    inBoundsB emptyBoard (-1) 0 = false ∧
    dirOpenEnds emptyBoard BLACK 0 0 1 0 = 2 ∧
    ((if claimOpenSide emptyBoard BLACK 0 0 1 0 then 1 else 0) +
     (if claimOpenSide emptyBoard BLACK 0 0 (-1) 0 then 1 else 0) : Nat) = 1 := by
  decide

/-- Helper: a guarded add-subtract fold equals the initial value plus
the sum of differences over the filtered list. -/
theorem foldl_filter_sub_sum {α : Type} (p : α → Bool) (f g : α → Int) :
    ∀ (l : List α) (init : Int),
      l.foldl (fun acc a => if p a then acc + f a - g a else acc) init
        = init + ((l.filter p).map fun a => f a - g a).sum := by
  intro l
  induction l with
  | nil => simp
  | cons a l ih =>
      intro init
      simp only [List.foldl_cons]
      by_cases h : p a
      · rw [ih]
        simp [h]
        ring
      · rw [ih]
        simp [h]

/-- Helper: an additive fold equals the initial value plus the mapped
sum. -/
theorem foldl_add_sum {α : Type} (g : α → Int) :
    ∀ (l : List α) (init : Int),
      l.foldl (fun acc a => acc + g a) init = init + (l.map g).sum := by
  intro l
  induction l with
  | nil => simp
  | cons a l ih =>
      intro init
      simp only [List.foldl_cons]
      rw [ih]
      simp
      ring

/-- Helper: a filtered, mapped sum over a flattened list splits into a
sum of per-block sums. -/
theorem sum_over_flatMap {α β : Type} (g : α → List β) (P : β → Bool) (F : β → Int) :
    ∀ l : List α,
      (((l.flatMap g).filter P).map F).sum
        = (l.map fun x => (((g x).filter P).map F).sum).sum := by
  intro l
  induction l with
  | nil => simp
  | cons a l ih =>
      simp [List.filter_append, ih]

/-- Helper: filtering and mapping through an index embedding commutes
with summation. -/
theorem inner_cell_sum {β : Type} (P : β → Bool) (F : β → Int) (m : Nat → β) :
    ∀ ys : List Nat,
      (((ys.map m).filter P).map F).sum
        = ((ys.filter fun y => P (m y)).map fun y => F (m y)).sum := by
  intro ys
  induction ys with
  | nil => simp
  | cons y ys ih =>
      by_cases h : P (m y) <;> simp [h, ih]

/-- C5: the board evaluator returns the positive sentinel when WHITE won
via the last move, the negative sentinel when BLACK won, 0 on other
terminal boards (in particular a full board with no winner), and on every
non-terminal board the sum over all empty cells of the WHITE score minus
the BLACK score. -/
theorem evaluate_board_matches_spec (diff : Difficulty) (b : Board) :
    evaluateBoard diff b = evaluateBoardSpec diff b := by
  unfold evaluateBoard evaluateBoardSpec
  by_cases h : b.is_game_over
  · simp [h]
  · simp only [h, if_false, Bool.false_eq_true]
    congr 1
    simp only [foldl_filter_sub_sum]
    rw [foldl_add_sum, zero_add]
    unfold emptyCells boardCells
    simp only [sum_over_flatMap, inner_cell_sum]

/-- Helper: membership in a descending insertion. -/
theorem mem_insertDesc {α : Type} (key : α → Int) (a x : α) :
    ∀ l : List α, x ∈ insertDesc key a l ↔ x = a ∨ x ∈ l := by
  intro l
  induction l with
  | nil => simp [insertDesc]
  | cons b l ih =>
      simp only [insertDesc]
      by_cases h : key b ≤ key a
      · simp [h]
      · simp [h, ih]
        tauto

/-- Helper: descending insertion preserves descending pairwise order. -/
theorem pairwise_insertDesc {α : Type} (key : α → Int) (a : α) :
    ∀ l : List α, l.Pairwise (fun u v => key v ≤ key u) →
      (insertDesc key a l).Pairwise (fun u v => key v ≤ key u) := by
  intro l
  induction l with
  | nil => intro _; simp [insertDesc]
  | cons b l ih =>
      intro hp
      rw [List.pairwise_cons] at hp
      obtain ⟨hb, hl⟩ := hp
      simp only [insertDesc]
      by_cases h : key b ≤ key a
      · rw [if_pos h]
        refine List.Pairwise.cons ?_ (List.Pairwise.cons hb hl)
        intro v hv
        rcases List.mem_cons.mp hv with rfl | hv
        · exact h
        · exact le_trans (hb v hv) h
      · rw [if_neg h]
        push_neg at h
        refine List.Pairwise.cons ?_ (ih hl)
        intro v hv
        rcases (mem_insertDesc key a v l).mp hv with rfl | hv
        · exact le_of_lt h
        · exact hb v hv

/-- Helper: the stable descending sort is pairwise descending by key. -/
theorem pairwise_sortDesc {α : Type} (key : α → Int) :
    ∀ l : List α, (sortDesc key l).Pairwise fun u v => key v ≤ key u := by
  intro l
  induction l with
  | nil => simp [sortDesc]
  | cons a l ih => exact pairwise_insertDesc key a _ ih

/-- Helper: sorting preserves membership. -/
theorem mem_sortDesc {α : Type} (key : α → Int) (x : α) :
    ∀ l : List α, x ∈ sortDesc key l ↔ x ∈ l := by
  intro l
  induction l with
  | nil => simp [sortDesc]
  | cons a l ih => simp [sortDesc, mem_insertDesc, ih]

/-- C3 (amended): the move generator pre-scores each candidate with the
WHITE-only positional score `evalPos (x, y, board, WHITE)` - not the
two-color sum - and returns the candidates in descending order of that
score. -/
theorem valid_moves_sorted_by_white_score (diff : Difficulty) (b : Board) :
    (getValidMoves diff b).Pairwise
      (fun p q => evalPos diff q.1 q.2 b WHITE ≤ evalPos diff p.1 p.2 b WHITE) := by
  unfold getValidMoves
  rw [List.pairwise_map]
  have hscore : ∀ pr ∈ (List.range b.size).flatMap fun (x : Nat) =>
      (List.range b.size).filterMap fun (y : Nat) =>
        if b.is_valid_move (x : Int) (y : Int) && hasNeighbor b (x : Int) (y : Int) then
          some (evalPos diff (x : Int) (y : Int) b WHITE, ((x : Int), (y : Int)))
        else none,
      pr.1 = evalPos diff pr.2.1 pr.2.2 b WHITE := by
    intro pr hpr
    rw [List.mem_flatMap] at hpr
    obtain ⟨x, hx, hpr⟩ := hpr
    rw [List.mem_filterMap] at hpr
    obtain ⟨y, hy, hif⟩ := hpr
    by_cases hc : b.is_valid_move (x : Int) (y : Int) && hasNeighbor b (x : Int) (y : Int)
    · rw [if_pos hc] at hif
      cases hif
      rfl
    · rw [if_neg hc] at hif
      cases hif
  refine List.Pairwise.imp_of_mem ?_ (pairwise_sortDesc (fun pr => pr.1) _)
  intro u v hu hv huv
  rw [mem_sortDesc] at hu hv
  rw [← hscore u hu, ← hscore v hv]
  exact huv

set_option maxRecDepth 100000 in
set_option maxHeartbeats 3200000 in
/-- C3 counterexample: on a board with a BLACK four-in-a-row in one
corner and a lone WHITE stone in the other, the generator's output is not
descending in the two-color sum `score(WHITE) + score(BLACK)`: cells near
the WHITE stone (sum 40) precede the BLACK five-completion `(4, 0)`
(sum 200000). -/
theorem valid_moves_sum_order_counterexample :
    ¬ (getValidMoves Difficulty.MEDIUM mixedBoard).Pairwise
      (fun p q => sumScore Difficulty.MEDIUM mixedBoard q ≤ sumScore Difficulty.MEDIUM mixedBoard p) := by
  decide

/-- Helper: every step up to the walked run length matches the color. -/
theorem colorMatch_of_le_runLen (b : Board) (c : Color) (dx dy : Int) :
    ∀ (fuel : Nat) (x y : Int) (i : Nat), 1 ≤ i → i ≤ runLen b c dx dy fuel x y →
      colorMatch b c (x + dx * (i : Int)) (y + dy * (i : Int)) = true := by
  intro fuel
  induction fuel with
  | zero =>
      intro x y i h1 h2
      simp [runLen] at h2
      omega
  | succ n ih =>
      intro x y i h1 h2
      simp only [runLen] at h2
      by_cases h : colorMatch b c (x + dx) (y + dy)
      · rw [if_pos h] at h2
        rcases Nat.eq_or_lt_of_le h1 with rfl | hi
        · simpa using h
        · have h2' : i - 1 ≤ runLen b c dx dy n (x + dx) (y + dy) := by omega
          have hrec := ih (x + dx) (y + dy) (i - 1) (by omega) h2'
          have hx : x + dx + dx * ((i - 1 : Nat) : Int) = x + dx * (i : Int) := by
            have hcast : ((i - 1 : Nat) : Int) = (i : Int) - 1 := by omega
            rw [hcast]; ring
          have hy : y + dy + dy * ((i - 1 : Nat) : Int) = y + dy * (i : Int) := by
            have hcast : ((i - 1 : Nat) : Int) = (i : Int) - 1 := by omega
            rw [hcast]; ring
          rw [hx, hy] at hrec
          exact hrec
      · rw [if_neg h] at h2
        omega

/-- Helper: if the first `j` steps all match, the bounded walk counts at
least `min j fuel` of them. -/
theorem min_le_runLen (b : Board) (c : Color) (dx dy : Int) :
    ∀ (fuel : Nat) (x y : Int) (j : Nat),
      (∀ i : Nat, 1 ≤ i → i ≤ j → colorMatch b c (x + dx * (i : Int)) (y + dy * (i : Int)) = true) →
      min j fuel ≤ runLen b c dx dy fuel x y := by
  intro fuel
  induction fuel with
  | zero => intro x y j _; simp
  | succ n ih =>
      intro x y j hm
      cases j with
      | zero => simp
      | succ m =>
          have h1 : colorMatch b c (x + dx) (y + dy) = true := by
            have := hm 1 (by omega) (by omega)
            simpa using this
          simp only [runLen, h1, if_true]
          have hrec := ih (x + dx) (y + dy) m ?_
          · omega
          · intro i hi1 hi2
            have := hm (i + 1) (by omega) (by omega)
            have hx : x + dx * ((i + 1 : Nat) : Int) = x + dx + dx * (i : Int) := by
              push_cast; ring
            have hy : y + dy * ((i + 1 : Nat) : Int) = y + dy + dy * (i : Int) := by
              push_cast; ring
            rw [hx, hy] at this
            exact this

/-- C6: on a board with at most one stone per coordinate and a stone `s`
on it, `check_win` returns `true` exactly when one of the four axes
carries at least 5 contiguous same-color stones through `s` (both
directions plus `s` itself). -/
theorem check_win_iff_run (b : Board) (s : Stone)
    (hnd : coordsNodup b) (hs : s ∈ b.stones) :
    b.check_win (some s) = true ↔ hasRunThrough b s := by
  unfold Board.check_win hasRunThrough
  rw [List.any_eq_true]
  constructor
  · rintro ⟨d, hd, hvd⟩
    rw [decide_eq_true_eq] at hvd
    refine ⟨d, hd, runLen b s.color d.1 d.2 4 s.x s.y,
      runLen b s.color (-d.1) (-d.2) 4 s.x s.y, by omega, ?_, ?_⟩
    · intro i h1 h2
      exact colorMatch_of_le_runLen b s.color d.1 d.2 4 s.x s.y i h1 h2
    · intro i h1 h2
      have := colorMatch_of_le_runLen b s.color (-d.1) (-d.2) 4 s.x s.y i h1 h2
      simpa [sub_eq_add_neg, neg_mul] using this
  · rintro ⟨d, hd, j, k, hjk, hpos, hneg⟩
    refine ⟨d, hd, ?_⟩
    rw [decide_eq_true_eq]
    have h1 := min_le_runLen b s.color d.1 d.2 4 s.x s.y j hpos
    have h2 := min_le_runLen b s.color (-d.1) (-d.2) 4 s.x s.y k ?_
    · omega
    · intro i hi1 hi2
      have := hneg i hi1 hi2
      simpa [sub_eq_add_neg, neg_mul] using this

/-- Witness for C6 on the literal horizontal run (0,0)-(4,0), together
with the claim's broken-run example evaluating to false. -/
theorem check_win_iff_run_witness :
    coordsNodup runBoard ∧ (⟨0, 0, BLACK⟩ : Stone) ∈ runBoard.stones ∧
    (runBoard.check_win (some ⟨0, 0, BLACK⟩) = true ↔ hasRunThrough runBoard ⟨0, 0, BLACK⟩) ∧
    runBoard.check_win (some ⟨0, 0, BLACK⟩) = true ∧
    brokenRunBoard.check_win (some ⟨0, 0, BLACK⟩) = false :=
  ⟨by decide, by decide,
   check_win_iff_run runBoard ⟨0, 0, BLACK⟩ (by decide) (by decide),
   by decide, by decide⟩

/-- Witness for C10 on the empty board, whose last move is absent. -/
theorem check_win_none_game_over_witness :
    emptyBoard.check_win none = false ∧ emptyBoard.last_move = none ∧
    (emptyBoard.is_game_over = true ↔ emptyBoard.stones.length = emptyBoard.size * emptyBoard.size) :=
  ⟨(check_win_none_game_over emptyBoard).1, rfl,
   (check_win_none_game_over emptyBoard).2 rfl⟩
